import Mathlib

/- Shallow embedding of the consensus / state-machine core of
   src/src/server/ins_node_impl.cc (galaxy::ins::InsNodeImpl).
   C++ strings are lists of characters, signed integers are Int,
   std::map / std::set are association lists, and each RPC handler or
   worker step is a pure function from an explicit state. -/

/-- Character strings (C++ std::string) as lists of characters. -/
abbrev Str := List Char

/-- Association-list lookup, mirroring std::map::find. -/
def alookup {α β : Type} [DecidableEq α] : List (α × β) → α → Option β
  | [], _ => none
  | (k, v) :: rest, key => if k = key then some v else alookup rest key

/-- Association-list insert-or-replace, mirroring std::map::operator[] assignment. -/
def aupdate {α β : Type} [DecidableEq α] : List (α × β) → α → β → List (α × β)
  | [], key, v => [(key, v)]
  | (k0, v0) :: rest, key, v =>
      if k0 = key then (key, v) :: rest else (k0, v0) :: aupdate rest key v

/-- LogOperation (proto enum), as used throughout ins_node_impl.cc. -/
inductive LogOperation where
  | kNop | kPut | kDel | kLock | kUnLock | kLogin | kLogout | kRegister | kAddNode
  deriving DecidableEq

open LogOperation

/-- NodeStatus: kFollower / kCandidate / kLeader. -/
inductive NodeStatus where
  | kFollower | kCandidate | kLeader
  deriving DecidableEq

/-- A stored KV record: the code stores one tag byte (the LogOperation) followed
by the payload (InsNodeImpl::CommitIndexObserv writes, InsNodeImpl::ParseValue
reads); we keep the two components of that string. -/
structure StoredVal where
  op : LogOperation
  payload : Str
  deriving DecidableEq

/-- The data_store_ contents: (user, key) to stored value. -/
abbrev Store := List ((Str × Str) × StoredVal)

/-- StorageManager::Get through a (user, key) pair; none models kNotFound. -/
def storeGet (st : Store) (user key : Str) : Option StoredVal :=
  alookup st (user, key)

/-- StorageManager::Put. -/
def storePut (st : Store) (user key : Str) (v : StoredVal) : Store :=
  aupdate st (user, key) v

/-- StorageManager::Delete. -/
def storeDelete (st : Store) (user key : Str) : Store :=
  st.filter (fun kv => decide (kv.1 ≠ (user, key)))

/-- The session table sessions_, reduced to the set of live session ids
(the lookups in ins_node_impl.cc only test presence by session_id). -/
abbrev Sessions := List Str

/-- InsNodeImpl::IsExpiredSession (1711-1722): a session is expired iff it is
absent from the session table. -/
def isExpiredSession (sessions : Sessions) (sessionId : Str) : Bool :=
  !(sessions.contains sessionId)

/-- A binlog entry (storage/binlog.h LogEntry as used in ins_node_impl.cc). -/
structure LogEntry where
  term : Int
  op : LogOperation
  user : Str
  key : Str
  value : Str
  deriving DecidableEq

/-- Modelled from the spec: BinLogger::GetLength, the number of log slots
(spec 4.2, length query); the binlog code itself is not under src/. -/
def binlogLength (log : List LogEntry) : Int := log.length

/-- Modelled from the spec: BinLogger::ReadSlot reads the entry at a 0-based
index (spec 4.2, readSlot); the binlog code itself is not under src/. -/
def readSlot (log : List LogEntry) (i : Int) : Option LogEntry :=
  if i ≥ 0 then log.get? i.toNat else none

/-- Modelled from the spec: BinLogger::Truncate(prefixEnd) keeps entries
[0..prefixEnd] (spec 4.2, truncate); the binlog code itself is not under src/. -/
def binlogTruncate (log : List LogEntry) (prefixEnd : Int) : List LogEntry :=
  log.take (prefixEnd + 1).toNat

/-- Modelled from the spec: BinLogger::GetLastLogIndexAndTerm (spec 4.2,
lastIndexAndTerm); (-1, -1) for an empty log, as the Raft handlers expect. -/
def lastLogIndexAndTerm (log : List LogEntry) : Int × Int :=
  match log.getLast? with
  | some e => ((log.length : Int) - 1, e.term)
  | none => (-1, -1)

/-- The Raft / role state of one node (the InsNodeImpl fields the verified
handlers touch). meta... fields model the synchronously persisted Meta file. -/
structure NodeState where
  selfId : Str
  status : NodeStatus
  currentTerm : Int
  metaCurrentTerm : Int
  votedFor : List (Int × Str)
  metaVotedFor : List (Int × Str)
  currentLeader : Str
  inSafeMode : Bool
  commitIndex : Int
  lastAppliedIndex : Int
  singleNodeMode : Bool
  heartbeatCount : Nat
  log : List LogEntry
  nextIndex : List (Str × Int)
  matchIndex : List (Str × Int)
  members : List Str
  changedMembers : List (Int × List Str)
  voteGrant : List (Int × Nat)
  deriving DecidableEq

/-- Loop body of InsNodeImpl::GetMembership (2400-2412): remember the last
member list whose index is before log_idx, stop at the first index at or
beyond it. -/
def getMembershipAux (last : List Str) : List (Int × List Str) → Int → List Str
  | [], _ => last
  | (k, m) :: rest, logIdx =>
      if k ≥ logIdx then last else getMembershipAux m rest logIdx

/-- InsNodeImpl::GetMembership (2400-2412): the membership in effect at a log
index, from the changed_members_ history (ordered by index). -/
def getMembership (changedMembers : List (Int × List Str)) (logIdx : Int) : List Str :=
  match changedMembers with
  | [] => []
  | (k, m) :: rest => getMembershipAux m ((k, m) :: rest) logIdx

/-- InsNodeImpl::UpdateCommitIndex (881-902). Counts the members of the
effective membership at a_index (excluding self) whose match_index_ is at
least a_index, and advances commit_index_ when that count reaches half the
size of the match_index_ map and a_index is beyond the current commit index.
Returns the new state and whether commit_cond_ was signalled. -/
def updateCommitIndex (st : NodeState) (aIndex : Int) : NodeState × Bool :=
  let membersToCheck := getMembership st.changedMembers aIndex
  let matchCount := (membersToCheck.filter (fun s =>
      decide (s ≠ st.selfId) && decide ((alookup st.matchIndex s).getD (-1) ≥ aIndex))).length
  if matchCount ≥ st.matchIndex.length / 2 ∧ aIndex > st.commitIndex then
    ({ st with commitIndex := aIndex }, true)
  else
    (st, false)

/-- The reply-success branch of InsNodeImpl::ReplicateLog (1000-1018): record
the new next/match index for the follower and invoke UpdateCommitIndex only
when the largest replicated term equals the leader's current term and the
follower is part of members_. Returns the new state and whether the commit
index advanced. -/
def replicateSuccessStep (st : NodeState) (followerId : Str)
    (index batchSpan maxTerm : Int) : NodeState × Bool :=
  let st1 := { st with
    nextIndex := aupdate st.nextIndex followerId (index + batchSpan),
    matchIndex := aupdate st.matchIndex followerId (index + batchSpan - 1) }
  if maxTerm = st1.currentTerm ∧ st1.members.contains followerId then
    updateCommitIndex st1 (index + batchSpan - 1)
  else
    (st1, false)

/-- A Vote RPC request (proto VoteRequest as filled in TryToBeLeader). -/
structure VoteRequest where
  term : Int
  candidateId : Str
  lastLogIndex : Int
  lastLogTerm : Int
  deriving DecidableEq

/-- A Vote RPC response. -/
structure VoteResponse where
  voteGranted : Bool
  term : Int
  deriving DecidableEq

/-- InsNodeImpl::TransToFollower (224-233): become follower, adopt the new
term, and persist it through Meta::WriteCurrentTerm. -/
def transToFollower (st : NodeState) (newTerm : Int) : NodeState :=
  { st with status := .kFollower, currentTerm := newTerm, metaCurrentTerm := newTerm }

/-- Grant tail of InsNodeImpl::Vote (872-876): record and persist the vote. -/
def voteGrantReply (st : NodeState) (rq : VoteRequest) : NodeState × VoteResponse :=
  let st1 := { st with
    votedFor := aupdate st.votedFor st.currentTerm rq.candidateId,
    metaVotedFor := aupdate st.metaVotedFor st.currentTerm rq.candidateId }
  (st1, ⟨true, st1.currentTerm⟩)

/-- InsNodeImpl::Vote (834-878), the vote-RPC receiver. -/
def vote (st : NodeState) (rq : VoteRequest) : NodeState × VoteResponse :=
  if rq.term < st.currentTerm then
    (st, ⟨false, st.currentTerm⟩)
  else
    let lastPair := lastLogIndexAndTerm st.log
    if rq.lastLogTerm < lastPair.2 then
      (st, ⟨false, st.currentTerm⟩)
    else if rq.lastLogTerm = lastPair.2 ∧ rq.lastLogIndex < lastPair.1 then
      (st, ⟨false, st.currentTerm⟩)
    else
      let st1 := if rq.term > st.currentTerm then transToFollower st rq.term else st
      match alookup st1.votedFor st1.currentTerm with
      | some cand =>
          if cand ≠ rq.candidateId then (st1, ⟨false, st1.currentTerm⟩)
          else voteGrantReply st1 rq
      | none => voteGrantReply st1 rq

/-- An AppendEntries request (proto, as read by DoAppendEntries). -/
structure AppendEntriesRequest where
  term : Int
  leaderId : Str
  prevLogIndex : Int
  prevLogTerm : Int
  leaderCommitIndex : Int
  entries : List LogEntry
  deriving DecidableEq

/-- An AppendEntries response. -/
structure AppendEntriesResponse where
  currentTerm : Int
  success : Bool
  logLength : Int
  isBusy : Bool
  deriving DecidableEq

/-- The follower's view of the leader's previous entry term in DoAppendEntries
(763-770): -1 below index 0, otherwise the term read from the slot (the code
asserts the slot read succeeds because prev_log_index is below the length). -/
def localPrevLogTerm (log : List LogEntry) (prevLogIndex : Int) : Int :=
  if prevLogIndex ≥ 0 then
    match readSlot log prevLogIndex with
    | some e => e.term
    | none => -1
  else
    -1

/-- Commit-update and success tail of InsNodeImpl::DoAppendEntries (804-815):
set commit_index_ to min(log length - 1, leader commit index), signal the
apply worker when it grew, and reply success. -/
def finishAppendEntries (st : NodeState) (rq : AppendEntriesRequest) :
    NodeState × AppendEntriesResponse × Bool :=
  let oldCommit := st.commitIndex
  let newCommit := min (binlogLength st.log - 1) rq.leaderCommitIndex
  let st1 := { st with commitIndex := newCommit }
  (st1, ⟨st1.currentTerm, true, binlogLength st1.log, false⟩, decide (newCommit > oldCommit))

/-- InsNodeImpl::DoAppendEntries (730-821), the AppendEntries receiver run on
the follower worker. maxCommitPending is FLAGS_max_commit_pending. Returns
the new state, the response, and whether commit_cond_ was signalled. -/
def doAppendEntries (maxCommitPending : Int) (st : NodeState)
    (rq : AppendEntriesRequest) : NodeState × AppendEntriesResponse × Bool :=
  if rq.term ≥ st.currentTerm then
    let st1 := { st with
      status := NodeStatus.kFollower,
      metaCurrentTerm := if rq.term > st.currentTerm then rq.term else st.metaCurrentTerm,
      currentTerm := rq.term,
      currentLeader := rq.leaderId,
      heartbeatCount := st.heartbeatCount + 1 }
    if rq.entries ≠ [] then
      if rq.prevLogIndex ≥ binlogLength st1.log then
        (st1, ⟨st1.currentTerm, false, binlogLength st1.log, false⟩, false)
      else if localPrevLogTerm st1.log rq.prevLogIndex ≠ rq.prevLogTerm then
        let st2 := { st1 with log := binlogTruncate st1.log (rq.prevLogIndex - 1) }
        (st2, ⟨st2.currentTerm, false, binlogLength st2.log, false⟩, false)
      else if st1.commitIndex - st1.lastAppliedIndex > maxCommitPending then
        (st1, ⟨st1.currentTerm, false, binlogLength st1.log, true⟩, false)
      else
        let st2 := if binlogLength st1.log > rq.prevLogIndex + 1 then
            { st1 with log := binlogTruncate st1.log rq.prevLogIndex }
          else st1
        let st3 := { st2 with log := st2.log ++ rq.entries }
        finishAppendEntries st3 rq
    else
      finishAppendEntries st1 rq
  else
    (st, ⟨st.currentTerm, false, binlogLength st.log, false⟩, false)

/-- InsNodeImpl::LockIsAvailable (1288-1323): the leader-local availability
check for a Lock request. -/
def lockIsAvailable (store : Store) (sessions : Sessions)
    (user key sessionId : Str) : Bool :=
  match storeGet store user key with
  | none => sessions.contains sessionId
  | some v =>
      if v.op ≠ kLock then false
      else
        let oldPresent := sessions.contains v.payload
        let selfPresent := sessions.contains sessionId
        if !oldPresent && selfPresent then true
        else if oldPresent && v.payload == sessionId then true
        else false

/-- Outcome of the Lock handler on the leader: possibly updated store and log,
plus the immediate response (none when the reply is deferred on the log index
through client_ack_). -/
structure LockRpcResult where
  store : Store
  log : List LogEntry
  immediateSuccess : Option Bool
  deriving DecidableEq

/-- InsNodeImpl::Lock (1373-1409), after the role / uuid / safe-mode guards:
if the lock is locally available, optimistically write it to the store and
append a kLock entry (the client ack is deferred on the entry's index);
otherwise answer success=false at once, appending nothing. -/
def lockStep (store : Store) (sessions : Sessions) (log : List LogEntry)
    (currentTerm : Int) (user key sessionId : Str) : LockRpcResult :=
  if lockIsAvailable store sessions user key sessionId then
    let store1 := storePut store user key ⟨kLock, sessionId⟩
    let entry : LogEntry := ⟨currentTerm, kLock, user, key, sessionId⟩
    ⟨store1, log ++ [entry], none⟩
  else
    ⟨store, log, some false⟩

/-- Position of the last '/' in a key (std::string::rfind in GetParentKey). -/
def rfindSlash (key : Str) : Option Nat :=
  match key.reverse.findIdx? (fun c => c == '/') with
  | some j => some (key.length - 1 - j)
  | none => none

/-- InsNodeImpl::GetParentKey (1724-1735): the prefix before the last '/'. -/
def getParentKey (key : Str) : Option Str :=
  match rfindSlash key with
  | some i => some (key.take i)
  | none => none

/-- The action string "unlock" passed to TouchParentKey on unlock. -/
def unlockActionStr : Str := ['u', 'n', 'l', 'o', 'c', 'k']

/-- InsNodeImpl::TouchParentKey (1737-1747): write "action,changedSession"
under the parent key with a kPut tag, if the key has a parent. -/
def touchParentKey (store : Store) (user key changedSession action : Str) : Store :=
  match getParentKey key with
  | some parent => storePut store user parent ⟨kPut, action ++ ',' :: changedSession⟩
  | none => store

/-- The kUnLock case of InsNodeImpl::CommitIndexObserv (327-357): apply an
Unlock log entry to the store. Returns the new store and whether the
watch-trigger task (TriggerEventWithParent) was queued. -/
def applyUnlockEntry (store : Store) (user key oldSession : Str) : Store × Bool :=
  match storeGet store user key with
  | some v =>
      if v.op = kLock ∧ v.payload = oldSession then
        let store1 := storeDelete store user key
        let store2 := touchParentKey store1 user key v.payload unlockActionStr
        (store2, true)
      else
        (store, false)
  | none => (store, false)

/-- Outcome of the immediate part of a Watch registration. -/
inductive WatchOutcome where
  | parked
  | fired (value : Str) (deleted : Bool)
  deriving DecidableEq

/-- Immediate-fire decision of InsNodeImpl::Watch (1914-1935), taken right
after the registration is parked. inStartupWindow models the guard
tm_now - server_start_timestamp_ <= FLAGS_session_expire_timeout, during
which the re-read is skipped entirely. A found record yields the parsed
payload and key_exist=true; a missing key yields the empty value and
deleted=true on fire. -/
def watchDecision (store : Store) (sessions : Sessions) (user key oldValue : Str)
    (keyExist : Bool) (inStartupWindow : Bool) : WatchOutcome :=
  if inStartupWindow then .parked
  else
    match storeGet store user key with
    | some v =>
        if v.payload ≠ oldValue ∨ keyExist ≠ true then .fired v.payload false
        else if v.op = kLock ∧ isExpiredSession sessions v.payload = true then .fired [] true
        else .parked
    | none =>
        if ([] : Str) ≠ oldValue ∨ keyExist ≠ false then .fired [] true
        else .parked

/-- sMaxPBSize (ins_node_impl.cc:50): 26<<20 bytes. -/
def sMaxPBSize : Nat := 26 * 1048576

/-- The reserved key "#TAG_LAST_APPLIED_INDEX#" (ins_node_impl.cc:45). -/
def tagLastAppliedIndex : Str :=
  ['#', 'T', 'A', 'G', '_', 'L', 'A', 'S', 'T', '_', 'A', 'P', 'P', 'L', 'I',
   'E', 'D', '_', 'I', 'N', 'D', 'E', 'X', '#']

/-- Lexicographic std::string operator< on character lists. -/
def strLt : Str → Str → Bool
  | [], [] => false
  | [], _ :: _ => true
  | _ :: _, [] => false
  | a :: as, b :: bs => if a < b then true else if b < a then false else strLt as bs

/-- The scan loop of InsNodeImpl::Scan (1474-1507). records is the iterator
sequence from Seek(start_key) onward; count and pbSize are the loop
accumulators (0 at entry). Returns the response items (key, parsed value)
and the has_more flag. -/
def scanLoop (sessions : Sessions) (endKey : Str) (sizeLimit : Int) :
    List (Str × StoredVal) → Int → Nat → List (Str × Str) × Bool
  | [], _, _ => ([], false)
  | (k, v) :: rest, count, pbSize =>
      if !(strLt k endKey || endKey.isEmpty) then ([], false)
      else if count > sizeLimit then ([], true)
      else if pbSize > sMaxPBSize then ([], true)
      else if k = tagLastAppliedIndex then
        scanLoop sessions endKey sizeLimit rest count pbSize
      else if v.op = kLock ∧ isExpiredSession sessions v.payload = true then
        scanLoop sessions endKey sizeLimit rest count pbSize
      else
        let res := scanLoop sessions endKey sizeLimit rest (count + 1)
            (pbSize + k.length + v.payload.length)
        ((k, v.payload) :: res.1, res.2)

/-- A Get RPC response (success / hit / value as set by the read paths). -/
structure GetResponse where
  success : Bool
  hit : Bool
  value : Str
  deriving DecidableEq

/-- The local fast-path read of InsNodeImpl::Get (1141-1176): a found lock
record held by an expired session is reported as a miss. -/
def getLocalRead (store : Store) (sessions : Sessions) (user key : Str) : GetResponse :=
  match storeGet store user key with
  | some v =>
      if v.op = kLock then
        if isExpiredSession sessions v.payload then ⟨true, false, []⟩
        else ⟨true, true, v.payload⟩
      else ⟨true, true, v.payload⟩
  | none => ⟨true, false, []⟩

/-- The read performed by InsNodeImpl::HeartBeatForReadCallback (530-567) once
succ_count reaches a majority: the same elision of expired locks. -/
def heartBeatForReadResult (store : Store) (sessions : Sessions)
    (user key : Str) : GetResponse :=
  match storeGet store user key with
  | some v =>
      if v.op = kLock then
        if isExpiredSession sessions v.payload then ⟨true, false, []⟩
        else ⟨true, true, v.payload⟩
      else ⟨true, true, v.payload⟩
  | none => ⟨true, false, []⟩

/-- Membership filtering in the InsNodeImpl constructor (77-105): in quiet
mode the node's own id is skipped; everything else is kept. -/
def initialMembers (configured : List Str) (selfId : Str) (quietMode : Bool) : List Str :=
  configured.filter (fun m => !(quietMode && m == selfId))

/-- single_node_mode_ initialisation (ins_node_impl.cc:103-105): set iff
exactly one member remains after the constructor's filtering. -/
def singleNodeModeInit (configured : List Str) (selfId : Str) (quietMode : Bool) : Bool :=
  (initialMembers configured selfId quietMode).length == 1

/-- vote_grant_[term]++ (std::map increment with default 0). -/
def bumpVoteGrant (grants : List (Int × Nat)) (term : Int) : List (Int × Nat) :=
  aupdate grants term ((alookup grants term).getD 0 + 1)

/-- InsNodeImpl::TryToBeLeader (677-728), the election-timer callback.
Returns the new state and the Vote requests broadcast (one per non-self
member; empty when no election is started). In single-node mode the node
becomes leader at once. -/
def tryToBeLeader (st : NodeState) : NodeState × List VoteRequest :=
  if st.singleNodeMode then
    ({ st with
        status := NodeStatus.kLeader,
        currentLeader := st.selfId,
        inSafeMode := false,
        commitIndex := st.lastAppliedIndex,
        currentTerm := st.currentTerm + 1,
        metaCurrentTerm := st.currentTerm + 1 }, [])
  else if st.status = NodeStatus.kLeader then
    (st, [])
  else if st.status = NodeStatus.kFollower ∧ st.heartbeatCount > 0 then
    ({ st with heartbeatCount := 0 }, [])
  else
    let newTerm := st.currentTerm + 1
    let st1 := { st with
      currentTerm := newTerm,
      metaCurrentTerm := newTerm,
      status := NodeStatus.kCandidate,
      votedFor := aupdate st.votedFor newTerm st.selfId,
      metaVotedFor := aupdate st.metaVotedFor newTerm st.selfId,
      voteGrant := bumpVoteGrant st.voteGrant newTerm }
    let lastPair := lastLogIndexAndTerm st1.log
    (st1, (st1.members.filter (fun m => decide (m ≠ st1.selfId))).map
        (fun _ => ⟨newTerm, st1.selfId, lastPair.1, lastPair.2⟩))

/-- InsNodeImpl::Put (1267-1285), after the role / backpressure / uuid guards:
append the kPut entry (the client ack is deferred on its index through
client_ack_, which we do not track) and, in single-node mode, advance the
commit index at once. No RPC is issued. Returns the new state and whether
commit_cond_ was signalled. -/
def putStep (st : NodeState) (user key value : Str) : NodeState × Bool :=
  let entry : LogEntry := ⟨st.currentTerm, kPut, user, key, value⟩
  let st1 := { st with log := st.log ++ [entry] }
  if st1.singleNodeMode then
    updateCommitIndex st1 (binlogLength st1.log - 1)
  else
    (st1, false)

/-- A fully-populated default node state used for concrete evaluations. -/
def baseState : NodeState where
  selfId := ['a']
  status := NodeStatus.kFollower
  currentTerm := 0
  metaCurrentTerm := 0
  votedFor := []
  metaVotedFor := []
  currentLeader := []
  inSafeMode := false
  commitIndex := -1
  lastAppliedIndex := -1
  singleNodeMode := false
  heartbeatCount := 0
  log := []
  nextIndex := []
  matchIndex := []
  members := []
  changedMembers := []
  voteGrant := []

/-- The commit rule as claim C1 states it: the peers of the effective
membership at a with matchIndex at least a, together with self, form a
strict majority of that membership, a is beyond the current commit index,
and the log entry at a carries the current term. -/
abbrev commitClaimCond (st : NodeState) (aIndex : Int) : Prop :=
  2 * ((getMembership st.changedMembers aIndex).countP (fun s =>
        decide (s ≠ st.selfId) &&
        decide ((alookup st.matchIndex s).getD (-1) ≥ aIndex)) + 1)
      > (getMembership st.changedMembers aIndex).length
  ∧ aIndex > st.commitIndex
  ∧ (readSlot st.log aIndex).map LogEntry.term = some st.currentTerm

/-- The commit rule the code actually enforces: the same peer count must
reach half the size of the match_index_ map (integer division), with the
current-term requirement left to the caller. -/
abbrev commitAmendedCond (st : NodeState) (aIndex : Int) : Prop :=
  (getMembership st.changedMembers aIndex).countP (fun s =>
      decide (s ≠ st.selfId) &&
      decide ((alookup st.matchIndex s).getD (-1) ≥ aIndex))
    ≥ st.matchIndex.length / 2
  ∧ st.commitIndex < aIndex

/-- A four-member state in which only one peer has matched index 5. -/
def c1State : NodeState :=
  { baseState with
    selfId := ['a']
    status := NodeStatus.kLeader
    currentTerm := 3
    metaCurrentTerm := 3
    currentLeader := ['a']
    commitIndex := 0
    lastAppliedIndex := 0
    log := [⟨3, kNop, [], [], []⟩, ⟨3, kNop, [], [], []⟩, ⟨3, kNop, [], [], []⟩,
            ⟨3, kNop, [], [], []⟩, ⟨3, kNop, [], [], []⟩, ⟨3, kNop, [], [], []⟩]
    matchIndex := [(['b'], 5), (['c'], -1), (['d'], -1)]
    members := [['a'], ['b'], ['c'], ['d']]
    changedMembers := [(-1, [['a'], ['b'], ['c'], ['d']])] }

/-- Claim C1, counterexample: on a four-member effective membership with a
single matching peer, UpdateCommitIndex(5) advances the commit index to 5 and
signals the apply worker, although one peer plus self is two of four nodes
and hence not a strict majority of the membership; the other two conditions
of the claim (5 beyond the commit index, and a current-term entry at 5) do
hold, so the claim's "exactly when" is violated. -/
theorem updateCommitIndex_strict_majority_refuted :
    (updateCommitIndex c1State 5).2 = true ∧
    (updateCommitIndex c1State 5).1.commitIndex = 5 ∧
    (5 : Int) > c1State.commitIndex ∧
    (readSlot c1State.log 5).map LogEntry.term = some c1State.currentTerm ∧
    ¬ commitClaimCond c1State 5 := by decide

/-- Claim C1, amended: UpdateCommitIndex counts the peers of the effective
membership at a (excluding self) whose matchIndex is at least a, and advances
the commit index to a exactly when that count is at least half the size of
the match-index map (integer division) and a is beyond the current commit
index; the apply worker is signalled exactly on advance, the state is
otherwise untouched, and the current-term requirement is enforced by the
caller ReplicateLog, which lets the commit index advance only when the
largest replicated term equals the current term. -/
theorem updateCommitIndex_characterization (st : NodeState) (a : Int) :
    ((updateCommitIndex st a).2 = true ↔ commitAmendedCond st a)
    ∧ ((updateCommitIndex st a).2 = true →
        (updateCommitIndex st a).1 = { st with commitIndex := a })
    ∧ ((updateCommitIndex st a).2 = false → (updateCommitIndex st a).1 = st)
    ∧ (∀ fid i span mt, (replicateSuccessStep st fid i span mt).2 = true →
        mt = st.currentTerm) := by
  refine ⟨?_, ?_, ?_, ?_⟩
  · simp only [updateCommitIndex, commitAmendedCond, List.countP_eq_length_filter]
    split
    · next h => simpa using h
    · next h => simpa using h
  · simp only [updateCommitIndex]
    split
    · intro _; rfl
    · intro h; exact absurd h (by simp)
  · simp only [updateCommitIndex]
    split
    · intro h; exact absurd h (by simp)
    · intro _; rfl
  · intro fid i span mt h
    simp only [replicateSuccessStep] at h
    split at h
    · next hc => exact hc.1
    · exact absurd h (by simp)

/-- Witness for the amended C1 theorem at the concrete four-member state. -/
theorem updateCommitIndex_characterization_witness :
    (updateCommitIndex c1State 5).1 = { c1State with commitIndex := 5 } :=
  (updateCommitIndex_characterization c1State 5).2.1 (by decide)

theorem alookup_aupdate_self {α β : Type} [DecidableEq α]
    (l : List (α × β)) (k : α) (v : β) : alookup (aupdate l k v) k = some v := by
  induction l with
  | nil => simp [alookup, aupdate]
  | cons hd tl ih =>
      obtain ⟨k0, v0⟩ := hd
      by_cases hk : k0 = k
      · simp [aupdate, hk, alookup]
      · simp [aupdate, hk, alookup, ih]

/-- The up-to-date comparison of claim C2: the candidate's (lastLogTerm,
lastLogIndex) is lexicographically at least the local one. -/
abbrev candidateLogUpToDate (st : NodeState) (rq : VoteRequest) : Prop :=
  (lastLogIndexAndTerm st.log).2 < rq.lastLogTerm ∨
  (rq.lastLogTerm = (lastLogIndexAndTerm st.log).2 ∧
   (lastLogIndexAndTerm st.log).1 ≤ rq.lastLogIndex)

/-- The term against which the voted-for check is made: the request's term
when it is higher (the code adopts it first), the current term otherwise. -/
abbrev voteEffectiveTerm (st : NodeState) (rq : VoteRequest) : Int :=
  if rq.term > st.currentTerm then rq.term else st.currentTerm

/-- A node at term 1 whose last log term is 5. -/
def c2State : NodeState :=
  { baseState with
    currentTerm := 1
    metaCurrentTerm := 1
    log := [⟨5, kNop, [], [], []⟩] }

/-- A vote request with a higher term (2) but a stale last log term (3). -/
def c2Request : VoteRequest := ⟨2, ['b'], 0, 3⟩

/-- Claim C2, counterexample: the request's term 2 exceeds the node's current
term 1, yet because the candidate's log fails the up-to-date check the vote
handler returns with the state completely unchanged: the node neither
transitions to follower for term 2 nor persists that term, contradicting the
claim's "whenever the request's term exceeds currentTerm the node transitions
to Follower and persists the new term before deciding the vote". -/
theorem vote_no_stepdown_on_stale_log :
    c2State.currentTerm < c2Request.term ∧
    (vote c2State c2Request).1 = c2State ∧
    (vote c2State c2Request).2 = ⟨false, 1⟩ := by decide

/-- Claim C2, amended: a vote is granted if and only if (a) the request's term
is at least currentTerm, (b) the candidate's log is at least as up-to-date as
the local log by (lastLogTerm, lastLogIndex) lexicographic comparison, and
(c) votedFor at the effective term (the request's term when higher) is unset
or already equals the candidate; and whenever the request's term exceeds
currentTerm and the candidate's log passes the up-to-date check, the node
transitions to Follower and persists the new term before deciding the vote;
a granted vote is recorded and persisted for the effective term. -/
theorem vote_characterization (st : NodeState) (rq : VoteRequest) :
    ((vote st rq).2.voteGranted = true ↔
      (st.currentTerm ≤ rq.term ∧ candidateLogUpToDate st rq ∧
       (alookup st.votedFor (voteEffectiveTerm st rq)).getD rq.candidateId
         = rq.candidateId))
    ∧ (st.currentTerm < rq.term → candidateLogUpToDate st rq →
        (vote st rq).1.status = NodeStatus.kFollower ∧
        (vote st rq).1.currentTerm = rq.term ∧
        (vote st rq).1.metaCurrentTerm = rq.term)
    ∧ ((vote st rq).2.voteGranted = true →
        alookup (vote st rq).1.votedFor (voteEffectiveTerm st rq)
          = some rq.candidateId ∧
        alookup (vote st rq).1.metaVotedFor (voteEffectiveTerm st rq)
          = some rq.candidateId) := by
  by_cases h1 : rq.term < st.currentTerm
  · refine ⟨?_, ?_, ?_⟩ <;> simp [vote, h1, candidateLogUpToDate]
    intro hlt hup
    omega
  · by_cases h2 : rq.lastLogTerm < (lastLogIndexAndTerm st.log).2
    · refine ⟨?_, ?_, ?_⟩ <;> simp [vote, h1, h2, candidateLogUpToDate]
      · intro hle h; exact absurd h (by omega)
      · intro hlt h; exact absurd h (by omega)
    · by_cases h3 : rq.lastLogTerm = (lastLogIndexAndTerm st.log).2 ∧
          rq.lastLogIndex < (lastLogIndexAndTerm st.log).1
      · refine ⟨?_, ?_, ?_⟩ <;> simp [vote, h1, h2, h3, candidateLogUpToDate]
      · have hup : candidateLogUpToDate st rq := by
          unfold candidateLogUpToDate; omega
        by_cases h4 : rq.term > st.currentTerm
        · have heff : voteEffectiveTerm st rq = rq.term := by
            unfold voteEffectiveTerm; omega
          cases halk : alookup st.votedFor rq.term with
          | some cand =>
              by_cases h5 : cand = rq.candidateId
              · refine ⟨?_, ?_, ?_⟩ <;>
                  simp [vote, h1, h2, h3, h4, h5, heff, halk, transToFollower,
                        voteGrantReply, hup, alookup_aupdate_self]
                omega
              · refine ⟨?_, ?_, ?_⟩ <;>
                  simp [vote, h1, h2, h3, h4, h5, heff, halk, transToFollower,
                        voteGrantReply, hup]
          | none =>
              refine ⟨?_, ?_, ?_⟩ <;>
                simp [vote, h1, h2, h3, h4, heff, halk, transToFollower,
                      voteGrantReply, hup, alookup_aupdate_self]
              omega
        · have heff : voteEffectiveTerm st rq = st.currentTerm := by
            unfold voteEffectiveTerm; omega
          cases halk : alookup st.votedFor st.currentTerm with
          | some cand =>
              by_cases h5 : cand = rq.candidateId
              · refine ⟨?_, ?_, ?_⟩ <;>
                  simp [vote, h1, h2, h3, h4, h5, heff, halk,
                        voteGrantReply, hup, alookup_aupdate_self]
                omega
              · refine ⟨?_, ?_, ?_⟩ <;>
                  simp [vote, h1, h2, h3, h4, h5, heff, halk, voteGrantReply, hup]
          | none =>
              refine ⟨?_, ?_, ?_⟩ <;>
                simp [vote, h1, h2, h3, h4, heff, halk,
                      voteGrantReply, hup, alookup_aupdate_self]
              omega

/-- Witness for the amended C2 theorem at a concrete state and request. -/
theorem vote_characterization_witness :
    (vote baseState ⟨1, ['b'], 0, 0⟩).2.voteGranted = true ∧
    (vote baseState ⟨1, ['b'], 0, 0⟩).1.metaCurrentTerm = 1 :=
  ⟨(vote_characterization baseState ⟨1, ['b'], 0, 0⟩).1.mpr (by decide),
   ((vote_characterization baseState ⟨1, ['b'], 0, 0⟩).2.1 (by decide) (by decide)).2.2⟩

/-- Claim C3: for an AppendEntries request that carries entries and whose term
is acceptable, the request is rejected exactly when prevLogIndex is at least
the local log length, or the local term at prevLogIndex differs from
prevLogTerm (the log then being truncated to keep entries up to
prevLogIndex - 1 only), or commitIndex - lastApplied exceeds
maxCommitPending (the rejection then carrying isBusy); otherwise the entries
are appended after the log is cut back to prevLogIndex and the reply has
success=true. -/
theorem doAppendEntries_with_entries (mcp : Int) (st : NodeState)
    (rq : AppendEntriesRequest)
    (h1 : st.currentTerm ≤ rq.term) (h2 : rq.entries ≠ []) :
    ((doAppendEntries mcp st rq).2.1.success = false ↔
      (binlogLength st.log ≤ rq.prevLogIndex ∨
       localPrevLogTerm st.log rq.prevLogIndex ≠ rq.prevLogTerm ∨
       mcp < st.commitIndex - st.lastAppliedIndex))
    ∧ (rq.prevLogIndex < binlogLength st.log →
        localPrevLogTerm st.log rq.prevLogIndex ≠ rq.prevLogTerm →
        (doAppendEntries mcp st rq).1.log = st.log.take rq.prevLogIndex.toNat)
    ∧ (rq.prevLogIndex < binlogLength st.log →
        localPrevLogTerm st.log rq.prevLogIndex = rq.prevLogTerm →
        mcp < st.commitIndex - st.lastAppliedIndex →
        (doAppendEntries mcp st rq).2.1.isBusy = true ∧
        (doAppendEntries mcp st rq).2.1.success = false)
    ∧ (rq.prevLogIndex < binlogLength st.log →
        localPrevLogTerm st.log rq.prevLogIndex = rq.prevLogTerm →
        st.commitIndex - st.lastAppliedIndex ≤ mcp →
        (doAppendEntries mcp st rq).2.1.success = true ∧
        (doAppendEntries mcp st rq).1.log =
          st.log.take (rq.prevLogIndex + 1).toNat ++ rq.entries) := by
  have hterm : rq.term ≥ st.currentTerm := h1
  by_cases hA : rq.prevLogIndex ≥ binlogLength st.log
  · refine ⟨?_, ?_, ?_, ?_⟩ <;>
      simp [doAppendEntries, hterm, h2, hA] <;> omega
  · by_cases hB : localPrevLogTerm st.log rq.prevLogIndex ≠ rq.prevLogTerm
    · refine ⟨?_, ?_, ?_, ?_⟩ <;>
        simp [doAppendEntries, hterm, h2, hA, hB, binlogTruncate] <;> omega
    · by_cases hC : st.commitIndex - st.lastAppliedIndex > mcp
      · refine ⟨?_, ?_, ?_, ?_⟩ <;>
          simp [doAppendEntries, hterm, h2, hA, hB, hC] <;> omega
      · by_cases hT : binlogLength st.log > rq.prevLogIndex + 1
        · refine ⟨?_, ?_, ?_, ?_⟩ <;>
            simp [doAppendEntries, finishAppendEntries, hterm, h2, hA, hB, hC, hT,
                  binlogTruncate] <;> omega
        · have htake : st.log.take (rq.prevLogIndex + 1).toNat = st.log := by
            apply List.take_of_length_le
            simp only [binlogLength] at hA hT
            omega
          refine ⟨?_, ?_, ?_, ?_⟩ <;>
            simp [doAppendEntries, finishAppendEntries, hterm, h2, hA, hB, hC, hT,
                  binlogTruncate, htake] <;> omega

/-- A follower state with one log entry of term 1. -/
def c3State : NodeState :=
  { baseState with
    currentTerm := 1
    metaCurrentTerm := 1
    log := [⟨1, kNop, [], [], []⟩] }

/-- An AppendEntries request appending one entry after the matching slot 0. -/
def c3Request : AppendEntriesRequest :=
  ⟨1, ['b'], 0, 1, 0, [⟨1, kPut, ['u'], ['k'], ['v']⟩]⟩

/-- Witness for C3 at a concrete accepted request. -/
theorem doAppendEntries_with_entries_witness :
    (doAppendEntries 10 c3State c3Request).2.1.success = true ∧
    (doAppendEntries 10 c3State c3Request).1.log =
      c3State.log.take (c3Request.prevLogIndex + 1).toNat ++ c3Request.entries :=
  (doAppendEntries_with_entries 10 c3State c3Request (by decide) (by decide)).2.2.2
    (by decide) (by decide) (by decide)

/-- An accepted heartbeat whose leader commit index does not move the local
commit index. -/
def c4Request : AppendEntriesRequest := ⟨1, ['b'], -1, -1, 0, []⟩

/-- The follower state for the C4 counterexample: commit index already 0. -/
def c4State : NodeState :=
  { baseState with
    currentTerm := 1
    metaCurrentTerm := 1
    commitIndex := 0
    lastAppliedIndex := 0
    log := [⟨1, kNop, [], [], []⟩] }

/-- Claim C4, counterexample: this AppendEntries request is accepted
(success=true) and the follower sets commitIndex = min(log length - 1,
leaderCommitIndex) = 0, but the apply worker is not signalled because the
commit index did not grow, contradicting the claim's unconditional "and
signals the apply worker". -/
theorem doAppendEntries_no_signal_without_growth :
    (doAppendEntries 10 c4State c4Request).2.1.success = true ∧
    (doAppendEntries 10 c4State c4Request).1.commitIndex =
      min (binlogLength (doAppendEntries 10 c4State c4Request).1.log - 1)
        c4Request.leaderCommitIndex ∧
    (doAppendEntries 10 c4State c4Request).2.2 = false := by decide

/-- Claim C4, amended: for every accepted AppendEntries request (with or
without entries) the follower sets commitIndex = min(log length - 1,
leaderCommitIndex) - in particular the commit index never moves past the end
of the local log - and the apply worker is signalled exactly when the commit
index strictly increased. -/
theorem doAppendEntries_commit_update (mcp : Int) (st : NodeState)
    (rq : AppendEntriesRequest) (h1 : st.currentTerm ≤ rq.term)
    (hs : (doAppendEntries mcp st rq).2.1.success = true) :
    (doAppendEntries mcp st rq).1.commitIndex =
      min (binlogLength (doAppendEntries mcp st rq).1.log - 1) rq.leaderCommitIndex
    ∧ (doAppendEntries mcp st rq).1.commitIndex
        < binlogLength (doAppendEntries mcp st rq).1.log
    ∧ ((doAppendEntries mcp st rq).2.2 = true ↔
        st.commitIndex < (doAppendEntries mcp st rq).1.commitIndex) := by
  have hterm : rq.term ≥ st.currentTerm := h1
  by_cases h2 : rq.entries = []
  · refine ⟨?_, ?_, ?_⟩ <;>
      simp [doAppendEntries, finishAppendEntries, hterm, h2, binlogLength] <;> omega
  · by_cases hA : (st.log.length : Int) ≤ rq.prevLogIndex
    · exact absurd hs (by simp [doAppendEntries, hterm, h2, binlogLength, hA])
    · by_cases hB : localPrevLogTerm st.log rq.prevLogIndex ≠ rq.prevLogTerm
      · exact absurd hs (by simp [doAppendEntries, hterm, h2, binlogLength, hA, hB])
      · by_cases hC : st.commitIndex - st.lastAppliedIndex > mcp
        · exact absurd hs
            (by simp [doAppendEntries, hterm, h2, binlogLength, hA, hB, hC])
        · by_cases hT : (st.log.length : Int) > rq.prevLogIndex + 1
          · refine ⟨?_, ?_, ?_⟩ <;>
              simp [doAppendEntries, finishAppendEntries, hterm, h2, hA, hB, hC, hT,
                    binlogLength, binlogTruncate] <;> omega
          · refine ⟨?_, ?_, ?_⟩ <;>
              simp [doAppendEntries, finishAppendEntries, hterm, h2, hA, hB, hC, hT,
                    binlogLength, binlogTruncate] <;> omega

/-- Witness for the amended C4 theorem at a concrete accepted request. -/
theorem doAppendEntries_commit_update_witness :
    (doAppendEntries 10 c4State c4Request).1.commitIndex =
      min (binlogLength (doAppendEntries 10 c4State c4Request).1.log - 1)
        c4Request.leaderCommitIndex :=
  (doAppendEntries_commit_update 10 c4State c4Request (by decide) (by decide)).1

/-- The lock availability rule as claim C5 states it: (a) no record, available
iff the requesting session exists; (b) a non-lock record is unavailable;
(c) a lock held by an expired session is available; (d) a lock held by the
requesting session itself is available; anything else is unavailable. -/
def lockAvailableClaim (store : Store) (sessions : Sessions)
    (user key sessionId : Str) : Bool :=
  match storeGet store user key with
  | none => sessions.contains sessionId
  | some v =>
      if v.op ≠ kLock then false
      else if isExpiredSession sessions v.payload then true
      else if v.payload = sessionId then true
      else false

/-- The availability rule the code actually enforces: cases (c) and (d)
additionally require the requesting session (equivalently, in case (d), the
holder) to be present in the session table. -/
abbrev lockAvailableAmended (store : Store) (sessions : Sessions)
    (user key sessionId : Str) : Prop :=
  match storeGet store user key with
  | none => sessions.contains sessionId = true
  | some v =>
      v.op = kLock ∧
      ((isExpiredSession sessions v.payload = true ∧
          sessions.contains sessionId = true) ∨
       (isExpiredSession sessions v.payload = false ∧ v.payload = sessionId))

/-- A store holding a single lock on (u, k) by session s. -/
def c5Store : Store := [(( ['u'], ['k'] ), ⟨kLock, ['s']⟩)]

/-- Claim C5, counterexample: the record on key k is a lock held by session s,
which is expired (the session table is empty), so by the claim's case (c) the
lock should be available to the requester s2; the code reports it
unavailable, because LockIsAvailable additionally requires the requesting
session to exist in the session table. -/
theorem lockIsAvailable_expired_holder_refuted :
    lockAvailableClaim c5Store [] ['u'] ['k'] ['s', '2'] = true ∧
    lockIsAvailable c5Store [] ['u'] ['k'] ['s', '2'] = false := by decide

/-- Claim C5, amended: availability is decided locally as follows - (a) with
no record, available iff the requesting session exists; (b) a record with a
non-lock tag is unavailable; (c) a lock held by an expired session is
available iff the requesting session exists; (d) a lock whose live holder is
the requesting session itself is available (re-entry); everything else is
unavailable - and an unavailable lock is answered success=false at once with
no log entry appended and the store untouched. -/
theorem lockIsAvailable_characterization (store : Store) (sessions : Sessions)
    (log : List LogEntry) (currentTerm : Int) (user key sessionId : Str) :
    (lockIsAvailable store sessions user key sessionId = true ↔
      lockAvailableAmended store sessions user key sessionId)
    ∧ (lockIsAvailable store sessions user key sessionId = false →
        lockStep store sessions log currentTerm user key sessionId =
          ⟨store, log, some false⟩) := by
  constructor
  · unfold lockIsAvailable lockAvailableAmended
    cases hga : storeGet store user key with
    | none => simp
    | some v =>
        by_cases hop : v.op = kLock
        · cases hold : sessions.contains v.payload with
          | false =>
              cases hself : sessions.contains sessionId with
              | false => simp [hop, hold, hself, isExpiredSession]
              | true => simp [hop, hold, hself, isExpiredSession]
          | true =>
              by_cases hpay : v.payload = sessionId
              · simp [hop, hold, hpay, isExpiredSession]
              · simp [hop, hold, hpay, isExpiredSession]
        · simp [hop]
  · intro hfalse
    unfold lockStep
    simp [hfalse]

/-- Witness for the amended C5 theorem: the unavailable case at the concrete
store answers success=false without touching store or log. -/
theorem lockIsAvailable_characterization_witness :
    lockStep c5Store [] [] 1 ['u'] ['k'] ['s', '2'] = ⟨c5Store, [], some false⟩ :=
  (lockIsAvailable_characterization c5Store [] [] 1 ['u'] ['k'] ['s', '2']).2 (by decide)

theorem alookup_aupdate_ne {α β : Type} [DecidableEq α]
    (l : List (α × β)) (k1 k2 : α) (v : β) (h : k1 ≠ k2) :
    alookup (aupdate l k1 v) k2 = alookup l k2 := by
  induction l with
  | nil => simp [aupdate, alookup, h]
  | cons hd tl ih =>
      obtain ⟨k0, v0⟩ := hd
      by_cases hk : k0 = k1
      · subst hk; simp [aupdate, alookup, h]
  
      · simp [aupdate, hk, alookup, ih]

theorem alookup_filter_ne {α β : Type} [DecidableEq α]
    (l : List (α × β)) (key : α) :
    alookup (l.filter (fun kv => decide (kv.1 ≠ key))) key = none := by
  induction l with
  | nil => simp [alookup]
  | cons hd tl ih =>
      by_cases hk : hd.1 = key
      · simpa [List.filter_cons, hk] using ih
      · simpa [List.filter_cons, hk, alookup] using ih

theorem getParentKey_length_lt (key parent : Str)
    (h : getParentKey key = some parent) : parent.length < key.length := by
  unfold getParentKey rfindSlash at h
  cases hf : key.reverse.findIdx? (fun c => c == '/') with
  | none => rw [hf] at h; simp at h
  | some j =>
      rw [hf] at h
      simp only [Option.some.injEq] at h
      have hk : key ≠ [] := by
        intro he
        rw [he] at hf
        simp at hf
      have hlen : 1 ≤ key.length := by
        cases key with
        | nil => exact absurd rfl hk
        | cons c cs => simp
      subst h
      simp only [List.length_take]
      omega

theorem touchParent_keeps_key_missing (s : Store) (user key cs : Str)
    (h : storeGet s user key = none) :
    storeGet (touchParentKey s user key cs unlockActionStr) user key = none := by
  unfold touchParentKey
  cases hp : getParentKey key with
  | none => exact h
  | some p =>
      have hlt := getParentKey_length_lt key p hp
      have hne : ((user, p) : Str × Str) ≠ (user, key) := by
        intro he
        have h2 : p = key := congrArg Prod.snd he
        rw [h2] at hlt
        omega
      unfold storeGet storePut
      rw [alookup_aupdate_ne _ _ _ _ hne]
      exact h

theorem storeDelete_get_none (s : Store) (user key : Str) :
    storeGet (storeDelete s user key) user key = none := by
  unfold storeDelete storeGet
  exact alookup_filter_ne s (user, key)

/-- Claim C6: applying an Unlock entry deletes the key if and only if the
stored tag is kLock and the stored payload equals the entry's session id; in
that case the parent key (when one exists) is touched with the
"unlock,sessionId" marker and the watch-trigger task is queued; in every
other case (key absent, tag not kLock, or a different holder) the apply
leaves the store untouched and queues nothing; consequently applying the
same Unlock entry twice leaves the same store as applying it once. -/
theorem applyUnlockEntry_correct (store : Store) (user key oldSession : Str) :
    (∀ v, storeGet store user key = some v →
      (v.op = kLock ∧ v.payload = oldSession →
        storeGet (applyUnlockEntry store user key oldSession).1 user key = none ∧
        (applyUnlockEntry store user key oldSession).2 = true ∧
        (∀ p, getParentKey key = some p →
          storeGet (applyUnlockEntry store user key oldSession).1 user p =
            some ⟨kPut, unlockActionStr ++ ',' :: oldSession⟩)) ∧
      (¬(v.op = kLock ∧ v.payload = oldSession) →
        applyUnlockEntry store user key oldSession = (store, false)))
    ∧ (storeGet store user key = none →
        applyUnlockEntry store user key oldSession = (store, false))
    ∧ (applyUnlockEntry (applyUnlockEntry store user key oldSession).1
          user key oldSession).1 =
        (applyUnlockEntry store user key oldSession).1 := by
  refine ⟨?_, ?_, ?_⟩
  · intro v hv
    constructor
    · intro hcond
      have hres : applyUnlockEntry store user key oldSession =
          (touchParentKey (storeDelete store user key) user key v.payload
            unlockActionStr, true) := by
        simp [applyUnlockEntry, hv, hcond]
      rw [hres]
      refine ⟨?_, rfl, ?_⟩
      · exact touchParent_keeps_key_missing _ user key v.payload
          (storeDelete_get_none store user key)
      · intro p hp
        unfold touchParentKey
        rw [hp]
        unfold storeGet storePut
        rw [alookup_aupdate_self, hcond.2]
    · intro hcond
      simp [applyUnlockEntry, hv, hcond]
  · intro hnone
    simp [applyUnlockEntry, hnone]
  · cases hga : storeGet store user key with
    | none => simp [applyUnlockEntry, hga]
    | some v =>
        by_cases hcond : v.op = kLock ∧ v.payload = oldSession
        · have hres : applyUnlockEntry store user key oldSession =
              (touchParentKey (storeDelete store user key) user key v.payload
                unlockActionStr, true) := by
            simp [applyUnlockEntry, hga, hcond]
          rw [hres]
          have hnone2 : storeGet (touchParentKey (storeDelete store user key)
              user key v.payload unlockActionStr) user key = none :=
            touchParent_keeps_key_missing _ user key v.payload
              (storeDelete_get_none store user key)
          simp [applyUnlockEntry, hnone2]
        · simp [applyUnlockEntry, hga, hcond]

/-- A store with a lock on key a/b held by session s. -/
def c6Store : Store := [((['u'], ['a', '/', 'b']), ⟨kLock, ['s']⟩)]

/-- Witness for C6: at the concrete lock record, the apply deletes the key,
queues the trigger task, and writes the unlock marker under the parent. -/
theorem applyUnlockEntry_correct_witness :
    storeGet (applyUnlockEntry c6Store ['u'] ['a', '/', 'b'] ['s']).1
      ['u'] ['a', '/', 'b'] = none ∧
    (applyUnlockEntry c6Store ['u'] ['a', '/', 'b'] ['s']).2 = true ∧
    storeGet (applyUnlockEntry c6Store ['u'] ['a', '/', 'b'] ['s']).1
      ['u'] ['a'] = some ⟨kPut, unlockActionStr ++ ',' :: ['s']⟩ := by
  have h := ((applyUnlockEntry_correct c6Store ['u'] ['a', '/', 'b'] ['s']).1
    ⟨kLock, ['s']⟩ (by decide)).1 ⟨rfl, rfl⟩
  exact ⟨h.1, h.2.1, h.2.2 ['a'] (by decide)⟩

/-- The current value the Watch handler re-reads (1916-1922): the parsed
payload of a found record, the empty string for a missing key. -/
def watchCurrentValue (store : Store) (user key : Str) : Str :=
  match storeGet store user key with
  | some v => v.payload
  | none => []

/-- Whether the watched key currently exists (s == kOk in the handler). -/
def watchCurrentExist (store : Store) (user key : Str) : Bool :=
  (storeGet store user key).isSome

/-- Whether the watched key currently holds a lock whose session is expired. -/
def watchLockExpired (store : Store) (sessions : Sessions) (user key : Str) : Bool :=
  match storeGet store user key with
  | some v => decide (v.op = kLock) && isExpiredSession sessions v.payload
  | none => false

/-- Claim C7, counterexample: a registration made inside the startup window
(tm_now - server_start_timestamp_ <= session_expire_timeout) is parked even
though the current state (missing key) differs from the supplied
(oldValue, keyExist) predicate, contradicting the claim's "on every
registration the leader re-reads the current value and fires the watch
immediately ... when (currentValue, currentExist) differs". -/
theorem watch_no_fire_in_startup_window :
    watchDecision [] [] ['u'] ['k'] ['x'] true true = WatchOutcome.parked ∧
    (watchCurrentValue [] ['u'] ['k'], watchCurrentExist [] ['u'] ['k'])
      ≠ (['x'], true) := by decide

/-- Claim C7, amended: inside the startup window every registration is
parked; afterwards, the watch fires immediately exactly when
(currentValue, currentExist) differs from the supplied (oldValue, keyExist)
or the key holds a lock whose session is expired; when the values differ the
fire carries the current state, and in the expired-lock case it reports the
key as deleted with an empty value. -/
theorem watchDecision_characterization (store : Store) (sessions : Sessions)
    (user key oldValue : Str) (keyExist inStartupWindow : Bool) :
    (inStartupWindow = true →
      watchDecision store sessions user key oldValue keyExist inStartupWindow
        = WatchOutcome.parked)
    ∧ (inStartupWindow = false →
        (watchDecision store sessions user key oldValue keyExist inStartupWindow
            ≠ WatchOutcome.parked ↔
          ((watchCurrentValue store user key, watchCurrentExist store user key)
              ≠ (oldValue, keyExist) ∨
            watchLockExpired store sessions user key = true)))
    ∧ (inStartupWindow = false →
        (watchCurrentValue store user key, watchCurrentExist store user key)
          ≠ (oldValue, keyExist) →
        watchDecision store sessions user key oldValue keyExist inStartupWindow
          = WatchOutcome.fired (watchCurrentValue store user key)
              (!watchCurrentExist store user key))
    ∧ (inStartupWindow = false →
        (watchCurrentValue store user key, watchCurrentExist store user key)
          = (oldValue, keyExist) →
        watchLockExpired store sessions user key = true →
        watchDecision store sessions user key oldValue keyExist inStartupWindow
          = WatchOutcome.fired [] true) := by
  cases inStartupWindow with
  | true => simp [watchDecision]
  | false =>
      cases hga : storeGet store user key with
      | none =>
          by_cases h1 : ([] : Str) = oldValue <;> cases keyExist <;>
            refine ⟨?_, ?_, ?_, ?_⟩ <;>
            simp [watchDecision, watchCurrentValue, watchCurrentExist,
                  watchLockExpired, hga, h1, Prod.ext_iff] <;> tauto
      | some v =>
          by_cases h1 : v.payload = oldValue <;> cases keyExist <;>
            by_cases h2 : v.op = kLock <;>
            cases hexp : isExpiredSession sessions v.payload <;>
            refine ⟨?_, ?_, ?_, ?_⟩ <;>
            simp [watchDecision, watchCurrentValue, watchCurrentExist,
                  watchLockExpired, hga, h1, h2, hexp, Prod.ext_iff] <;> tauto

/-- Witness for the amended C7 theorem: past the startup window, a watch on a
missing key with a non-matching predicate fires at once as a deletion. -/
theorem watchDecision_characterization_witness :
    watchDecision [] [] ['u'] ['k'] ['x'] true false =
      WatchOutcome.fired (watchCurrentValue [] ['u'] ['k'])
        (!watchCurrentExist [] ['u'] ['k']) :=
  (watchDecision_characterization [] [] ['u'] ['k'] ['x'] true false).2.2.1
    rfl (by decide)

/-- Whether a record key passes the scan's range test (Scan loop condition). -/
def scanInRange (endKey : Str) (k : Str) : Bool :=
  strLt k endKey || endKey.isEmpty

/-- Whether the scan keeps a record: not the reserved last-applied key and
not a lock held by an expired session. -/
def scanKeeps (sessions : Sessions) (r : Str × StoredVal) : Bool :=
  !(r.1 == tagLastAppliedIndex) &&
  !(decide (r.2.op = kLock) && isExpiredSession sessions r.2.payload)

/-- Total key+payload size of a record list. -/
def recordsSize (rs : List (Str × StoredVal)) : Nat :=
  (rs.map (fun r => r.1.length + r.2.payload.length)).sum

/-- Total key+value size of scan result items. -/
def scanItemsSize (items : List (Str × Str)) : Nat :=
  (items.map (fun it => it.1.length + it.2.length)).sum

/-- Two ordinary records. -/
def c8Records : List (Str × StoredVal) :=
  [(['a'], ⟨kPut, ['x']⟩), (['b'], ⟨kPut, ['y']⟩)]

/-- Claim C8, counterexample: with sizeLimit = 0 the scan loop returns one
item (the count check runs before the item is added, so up to sizeLimit + 1
items are returned), contradicting "the number of returned items is bounded
by the request's sizeLimit". -/
theorem scan_size_limit_refuted :
    (scanLoop [] [] 0 c8Records 0 0).1.length = 1 ∧
    ¬ ((scanLoop [] [] 0 c8Records 0 0).1.length ≤ 0) := by decide

theorem scanLoop_count_bound (sessions : Sessions) (endKey : Str)
    (sizeLimit : Int) (records : List (Str × StoredVal)) :
    ∀ (count : Int) (pbSize : Nat),
      (scanLoop sessions endKey sizeLimit records count pbSize).1 ≠ [] →
      count + ((scanLoop sessions endKey sizeLimit records count pbSize).1.length : Int)
        ≤ sizeLimit + 1 := by
  induction records with
  | nil => intro count pbSize h; simp [scanLoop] at h
  | cons r rest ih =>
      obtain ⟨k, v⟩ := r
      intro count pbSize h
      cases hb1 : strLt k endKey || endKey.isEmpty with
      | false => rw [scanLoop] at h; simp [hb1] at h
      | true =>
          by_cases h2 : count > sizeLimit
          · rw [scanLoop] at h; simp [hb1, h2] at h
          · by_cases h3 : pbSize > sMaxPBSize
            · rw [scanLoop] at h; simp [hb1, h2, h3] at h
            · by_cases h4 : k = tagLastAppliedIndex
              · subst h4
                rw [scanLoop] at h ⊢
                simp only [hb1, h2, h3] at h ⊢
                simp at h ⊢
                exact ih count pbSize h
              · by_cases h5 : v.op = kLock ∧ isExpiredSession sessions v.payload = true
                · rw [scanLoop] at h ⊢
                  simp only [hb1, h2, h3, h4, h5] at h ⊢
                  simp [h5] at h ⊢
                  exact ih count pbSize h
                · rw [scanLoop] at h ⊢
                  simp only [hb1, h2, h3, h4, h5] at h ⊢
                  simp [h5] at h ⊢
                  rcases hres : (scanLoop sessions endKey sizeLimit rest (count + 1)
                      (pbSize + k.length + v.payload.length)).1 with - | ⟨y, t⟩
                  · simp [hres]; omega
                  · have hh := ih (count + 1) (pbSize + k.length + v.payload.length)
                      (by rw [hres]; simp)
                    rw [hres] at hh
                    simp [hres]
                    simp at hh
                    omega

theorem scanLoop_size_bound (sessions : Sessions) (endKey : Str)
    (sizeLimit : Int) (records : List (Str × StoredVal)) :
    ∀ (count : Int) (pbSize : Nat),
      (scanLoop sessions endKey sizeLimit records count pbSize).1 ≠ [] →
      pbSize + scanItemsSize
          (scanLoop sessions endKey sizeLimit records count pbSize).1.dropLast
        ≤ sMaxPBSize := by
  induction records with
  | nil => intro count pbSize h; simp [scanLoop] at h
  | cons r rest ih =>
      obtain ⟨k, v⟩ := r
      intro count pbSize h
      cases hb1 : strLt k endKey || endKey.isEmpty with
      | false => rw [scanLoop] at h; simp [hb1] at h
      | true =>
          by_cases h2 : count > sizeLimit
          · rw [scanLoop] at h; simp [hb1, h2] at h
          · by_cases h3 : pbSize > sMaxPBSize
            · rw [scanLoop] at h; simp [hb1, h2, h3] at h
            · by_cases h4 : k = tagLastAppliedIndex
              · subst h4
                rw [scanLoop] at h ⊢
                simp only [hb1, h2, h3] at h ⊢
                simp at h ⊢
                exact ih count pbSize h
              · by_cases h5 : v.op = kLock ∧ isExpiredSession sessions v.payload = true
                · rw [scanLoop] at h ⊢
                  simp only [hb1, h2, h3, h4, h5] at h ⊢
                  simp [h5] at h ⊢
                  exact ih count pbSize h
                · rw [scanLoop] at h ⊢
                  simp only [hb1, h2, h3, h4, h5] at h ⊢
                  simp [h5] at h ⊢
                  rcases hres : (scanLoop sessions endKey sizeLimit rest (count + 1)
                      (pbSize + k.length + v.payload.length)).1 with - | ⟨y, t⟩
                  · simp [hres, scanItemsSize]; omega
                  · have hh := ih (count + 1) (pbSize + k.length + v.payload.length)
                      (by rw [hres]; simp)
                    rw [hres] at hh
                    simp [hres, scanItemsSize] at hh ⊢
                    omega

theorem scanLoop_items_from_records (sessions : Sessions) (endKey : Str)
    (sizeLimit : Int) (records : List (Str × StoredVal)) :
    ∀ (count : Int) (pbSize : Nat) (it : Str × Str),
      it ∈ (scanLoop sessions endKey sizeLimit records count pbSize).1 →
      it.1 ≠ tagLastAppliedIndex ∧
      ∃ v, (it.1, v) ∈ records ∧ it.2 = v.payload ∧
        ¬(v.op = kLock ∧ isExpiredSession sessions v.payload = true) := by
  induction records with
  | nil => intro count pbSize it h; simp [scanLoop] at h
  | cons r rest ih =>
      obtain ⟨k, v⟩ := r
      intro count pbSize it h
      cases hb1 : strLt k endKey || endKey.isEmpty with
      | false => rw [scanLoop] at h; simp [hb1] at h
      | true =>
          by_cases h2 : count > sizeLimit
          · rw [scanLoop] at h; simp [hb1, h2] at h
          · by_cases h3 : pbSize > sMaxPBSize
            · rw [scanLoop] at h; simp [hb1, h2, h3] at h
            · by_cases h4 : k = tagLastAppliedIndex
              · subst h4
                rw [scanLoop] at h
                simp only [hb1, h2, h3] at h
                simp at h
                obtain ⟨hne, w, hw, hpay, hcond⟩ := ih count pbSize it h
                exact ⟨hne, w, List.mem_cons_of_mem _ hw, hpay, hcond⟩
              · by_cases h5 : v.op = kLock ∧ isExpiredSession sessions v.payload = true
                · rw [scanLoop] at h
                  simp only [hb1, h2, h3, h4, h5] at h
                  simp [h5] at h
                  obtain ⟨hne, w, hw, hpay, hcond⟩ := ih count pbSize it h
                  exact ⟨hne, w, List.mem_cons_of_mem _ hw, hpay, hcond⟩
                · rw [scanLoop] at h
                  simp only [hb1, h2, h3, h4, h5] at h
                  simp [h5] at h
                  rcases h with hhead | htail
                  · subst hhead
                    exact ⟨h4, v, List.mem_cons_self _ _, rfl, h5⟩
                  · obtain ⟨hne, w, hw, hpay, hcond⟩ := ih _ _ it htail
                    exact ⟨hne, w, List.mem_cons_of_mem _ hw, hpay, hcond⟩

/-- The records the scan can reach: the longest in-range prefix of the
iterator sequence. -/
def scanReachable (endKey : Str) (records : List (Str × StoredVal)) :
    List (Str × StoredVal) :=
  records.takeWhile (fun r => scanInRange endKey r.1)

/-- Claim-side reading of "a bound stopped the iteration early": at the
arrival of some reachable record, the item count or the accumulated payload
produced by the processed prefix already exceeds a bound. -/
def scanBoundHit (sessions : Sessions) (endKey : Str) (sizeLimit : Int)
    (records : List (Str × StoredVal)) (count : Int) (pbSize : Nat) : Prop :=
  ∃ n, n < (scanReachable endKey records).length ∧
    (count + ((((scanReachable endKey records).take n).filter
        (scanKeeps sessions)).length : Int) > sizeLimit ∨
     pbSize + recordsSize (((scanReachable endKey records).take n).filter
        (scanKeeps sessions)) > sMaxPBSize)

theorem scanLoop_hasMore_iff (sessions : Sessions) (endKey : Str)
    (sizeLimit : Int) (records : List (Str × StoredVal)) :
    ∀ (count : Int) (pbSize : Nat),
      ((scanLoop sessions endKey sizeLimit records count pbSize).2 = true ↔
        scanBoundHit sessions endKey sizeLimit records count pbSize) := by
  induction records with
  | nil =>
      intro count pbSize
      simp [scanLoop, scanBoundHit, scanReachable]
  | cons r rest ih =>
      obtain ⟨k, v⟩ := r
      intro count pbSize
      cases hb1 : strLt k endKey || endKey.isEmpty with
      | false =>
          have hreach : scanReachable endKey ((k, v) :: rest) = [] := by
            simp [scanReachable, List.takeWhile_cons, scanInRange, hb1]
          rw [scanLoop]
          simp [hb1, scanBoundHit, hreach]
      | true =>
          have hreach : scanReachable endKey ((k, v) :: rest)
              = (k, v) :: scanReachable endKey rest := by
            simp [scanReachable, List.takeWhile_cons, scanInRange, hb1]
          by_cases h2 : count > sizeLimit
          · rw [scanLoop]
            simp only [hb1]
            simp [h2, scanBoundHit]
            refine ⟨0, ?_, ?_⟩
            · rw [hreach]; simp
            · left; simpa using h2
          · by_cases h3 : pbSize > sMaxPBSize
            · rw [scanLoop]
              simp only [hb1]
              simp [h2, h3, scanBoundHit]
              refine ⟨0, ?_, ?_⟩
              · rw [hreach]; simp
              · right; simp [recordsSize]; omega
            · have hshift : ∀ (keepv : Bool), scanKeeps sessions (k, v) = keepv →
                ∀ (cs : Int) (ps : Nat),
                (keepv = true → cs = count + 1 ∧
                  ps = pbSize + k.length + v.payload.length) →
                (keepv = false → cs = count ∧ ps = pbSize) →
                (scanBoundHit sessions endKey sizeLimit ((k, v) :: rest) count pbSize
                  ↔ scanBoundHit sessions endKey sizeLimit rest cs ps) := by
                intro keepv hkeep cs ps htrue hfalse
                constructor
                · rintro ⟨n, hn, hc⟩
                  cases n with
                  | zero =>
                      exfalso
                      simp [recordsSize] at hc
                      omega
                  | succ m =>
                      rw [hreach] at hn hc
                      refine ⟨m, by simpa using hn, ?_⟩
                      cases keepv with
                      | true =>
                          obtain ⟨hcs, hps⟩ := htrue rfl
                          subst hcs; subst hps
                          simp only [List.take_succ_cons, List.filter_cons,
                            hkeep, recordsSize, List.map_cons, List.sum_cons,
                            if_true] at hc
                          rcases hc with hc | hc
                          · left
                            simp only [List.length_cons] at hc
                            push_cast at hc ⊢
                            omega
                          · right
                            simp [recordsSize] at hc ⊢
                            omega
                      | false =>
                          obtain ⟨hcs, hps⟩ := hfalse rfl
                          subst hcs; subst hps
                          simpa only [List.take_succ_cons, List.filter_cons,
                            hkeep, Bool.false_eq_true, if_false] using hc
                · rintro ⟨m, hm, hc⟩
                  refine ⟨m + 1, ?_, ?_⟩
                  · rw [hreach]; simpa using hm
                  · rw [hreach]
                    cases keepv with
                    | true =>
                        obtain ⟨hcs, hps⟩ := htrue rfl
                        subst hcs; subst hps
                        simp only [List.take_succ_cons, List.filter_cons, hkeep,
                          if_true]
                        rcases hc with hc | hc
                        · left
                          simp only [List.length_cons]
                          push_cast at hc ⊢
                          omega
                        · right
                          simp [recordsSize] at hc ⊢
                          omega
                    | false =>
                        obtain ⟨hcs, hps⟩ := hfalse rfl
                        subst hcs; subst hps
                        simpa only [List.take_succ_cons, List.filter_cons,
                          hkeep, Bool.false_eq_true, if_false] using hc
              by_cases h4 : k = tagLastAppliedIndex
              · have hkeep : scanKeeps sessions (k, v) = false := by
                  simp [scanKeeps, h4]
                subst h4
                rw [scanLoop]
                simp only [hb1]
                simp [h2, h3]
                rw [ih count pbSize]
                exact (hshift false hkeep count pbSize
                  (by intro hh; cases hh) (fun _ => ⟨rfl, rfl⟩)).symm
              · by_cases h5 : v.op = kLock ∧ isExpiredSession sessions v.payload = true
                · have hkeep : scanKeeps sessions (k, v) = false := by
                    simp [scanKeeps, h5.1, h5.2]
                  rw [scanLoop]
                  simp only [hb1]
                  simp [h2, h3, h4, h5]
                  rw [ih count pbSize]
                  exact (hshift false hkeep count pbSize
                    (by intro hh; cases hh) (fun _ => ⟨rfl, rfl⟩)).symm
                · have hkeep : scanKeeps sessions (k, v) = true := by
                    have h4b : (k == tagLastAppliedIndex) = false := by simpa using h4
                    by_cases hop : v.op = kLock
                    · have hexp : isExpiredSession sessions v.payload = false := by
                        cases hx : isExpiredSession sessions v.payload
                        · rfl
                        · exact absurd ⟨hop, hx⟩ h5
                      simp [scanKeeps, h4b, hop, hexp]
                    · simp [scanKeeps, h4b, hop]
                  rw [scanLoop]
                  simp only [hb1]
                  simp [h2, h3, h4, h5]
                  rw [ih (count + 1) (pbSize + k.length + v.payload.length)]
                  exact (hshift true hkeep (count + 1)
                    (pbSize + k.length + v.payload.length)
                    (fun _ => ⟨rfl, rfl⟩) (by intro hh; cases hh)).symm

/-- Claim C8, amended: for every scan served, at most sizeLimit + 1 items are
returned (the count bound is checked before an item is added, so the claimed
sizeLimit bound can be exceeded by exactly one item); the accumulated
key+value payload of all items but the last is bounded by 26 MB (so the
total payload exceeds 26 MB by at most the final item); hasMore=true is
returned exactly when a count or payload bound stopped the iteration while
an in-range record remained; records whose tag is Lock held by an expired
session are elided; and the reserved key #TAG_LAST_APPLIED_INDEX# never
appears in the results. -/
theorem scanLoop_characterization (sessions : Sessions) (endKey : Str)
    (sizeLimit : Int) (records : List (Str × StoredVal)) :
    ((scanLoop sessions endKey sizeLimit records 0 0).1 ≠ [] →
        ((scanLoop sessions endKey sizeLimit records 0 0).1.length : Int)
          ≤ sizeLimit + 1)
    ∧ ((scanLoop sessions endKey sizeLimit records 0 0).1 ≠ [] →
        scanItemsSize (scanLoop sessions endKey sizeLimit records 0 0).1.dropLast
          ≤ sMaxPBSize)
    ∧ (∀ it ∈ (scanLoop sessions endKey sizeLimit records 0 0).1,
        it.1 ≠ tagLastAppliedIndex ∧
        ∃ v, (it.1, v) ∈ records ∧ it.2 = v.payload ∧
          ¬(v.op = kLock ∧ isExpiredSession sessions v.payload = true))
    ∧ ((scanLoop sessions endKey sizeLimit records 0 0).2 = true ↔
        scanBoundHit sessions endKey sizeLimit records 0 0) := by
  refine ⟨?_, ?_, ?_, ?_⟩
  · intro h
    have hb := scanLoop_count_bound sessions endKey sizeLimit records 0 0 h
    omega
  · intro h
    have hb := scanLoop_size_bound sessions endKey sizeLimit records 0 0 h
    omega
  · intro it hit
    exact scanLoop_items_from_records sessions endKey sizeLimit records 0 0 it hit
  · exact scanLoop_hasMore_iff sessions endKey sizeLimit records 0 0

/-- Witness for the amended C8 theorem at a concrete record list. -/
theorem scanLoop_characterization_witness :
    ((scanLoop [] [] 5 c8Records 0 0).1.length : Int) ≤ 5 + 1 ∧
    (['a'], ['x']).1 ≠ tagLastAppliedIndex :=
  ⟨(scanLoop_characterization [] [] 5 c8Records).1 (by decide),
   ((scanLoop_characterization [] [] 5 c8Records).2.2.1 (['a'], ['x'])
     (by decide)).1⟩

/-- Claim C9: with a configured membership of exactly one member (and quiet
mode off) the constructor sets single-node mode; in single-node mode the
election-timer callback makes the node Leader immediately with no Vote RPC
sent, increments and persists currentTerm, clears safe mode, and sets
commitIndex = lastApplied; and a subsequent client Put on such a node (with
no replication state and a commit index within the log) advances commitIndex
to the new entry's index immediately after the local append, signalling the
apply worker, with no replication involved. -/
theorem singleNode_immediate_leader_and_commit (cfg : List Str) (st : NodeState)
    (user key value : Str)
    (hcfg : cfg = [st.selfId])
    (hsm : st.singleNodeMode = true)
    (hmi : st.matchIndex = [])
    (hci : st.commitIndex < binlogLength st.log) :
    singleNodeModeInit cfg st.selfId false = true
    ∧ (tryToBeLeader st).2 = []
    ∧ (tryToBeLeader st).1.status = NodeStatus.kLeader
    ∧ (tryToBeLeader st).1.currentLeader = st.selfId
    ∧ (tryToBeLeader st).1.inSafeMode = false
    ∧ (tryToBeLeader st).1.currentTerm = st.currentTerm + 1
    ∧ (tryToBeLeader st).1.metaCurrentTerm = st.currentTerm + 1
    ∧ (tryToBeLeader st).1.commitIndex = st.lastAppliedIndex
    ∧ (putStep st user key value).1.commitIndex = binlogLength st.log
    ∧ (putStep st user key value).2 = true := by
  simp only [binlogLength] at hci
  refine ⟨?_, ?_, ?_, ?_, ?_, ?_, ?_, ?_, ?_, ?_⟩
  · subst hcfg; simp [singleNodeModeInit, initialMembers]
  · simp [tryToBeLeader, hsm]
  · simp [tryToBeLeader, hsm]
  · simp [tryToBeLeader, hsm]
  · simp [tryToBeLeader, hsm]
  · simp [tryToBeLeader, hsm]
  · simp [tryToBeLeader, hsm]
  · simp [tryToBeLeader, hsm]
  · simp [putStep, hsm, updateCommitIndex, hmi, binlogLength, hci]
  · simp [putStep, hsm, updateCommitIndex, hmi, binlogLength, hci]

/-- Witness for C9 at a concrete single-node state. -/
def c9State : NodeState :=
  { baseState with
    singleNodeMode := true
    members := [['a']]
    changedMembers := [(-1, [['a']])] }

/-- Witness for the C9 theorem: the concrete single-node state becomes leader
with no Vote RPC and a Put advances the commit index at once. -/
theorem singleNode_immediate_leader_and_commit_witness :
    (tryToBeLeader c9State).2 = [] ∧
    (putStep c9State ['u'] ['k'] ['v']).1.commitIndex = binlogLength c9State.log :=
  ⟨(singleNode_immediate_leader_and_commit [['a']] c9State ['u'] ['k'] ['v']
      rfl rfl rfl (by decide)).2.1,
   (singleNode_immediate_leader_and_commit [['a']] c9State ['u'] ['k'] ['v']
      rfl rfl rfl (by decide)).2.2.2.2.2.2.2.2.1⟩

/-- Claim C10: on both leader read paths (the local fast path of Get and the
majority completion of HeartBeatForReadCallback), a stored record with tag
kLock whose holding session is absent from the session table is answered
success=true with hit=false (the key is reported absent), while any other
found record is answered hit=true with the stored payload. -/
theorem get_elides_expired_locks (store : Store) (sessions : Sessions)
    (user key : Str) (v : StoredVal)
    (hv : storeGet store user key = some v) :
    ((v.op = kLock ∧ isExpiredSession sessions v.payload = true) →
      getLocalRead store sessions user key = ⟨true, false, []⟩ ∧
      heartBeatForReadResult store sessions user key = ⟨true, false, []⟩)
    ∧ (¬(v.op = kLock ∧ isExpiredSession sessions v.payload = true) →
      getLocalRead store sessions user key = ⟨true, true, v.payload⟩ ∧
      heartBeatForReadResult store sessions user key = ⟨true, true, v.payload⟩) := by
  constructor
  · rintro ⟨hop, hexp⟩
    simp [getLocalRead, heartBeatForReadResult, hv, hop, hexp]
  · intro hn
    by_cases hop : v.op = kLock
    · have hexp : isExpiredSession sessions v.payload = false := by
        cases hx : isExpiredSession sessions v.payload
        · rfl
        · exact absurd ⟨hop, hx⟩ hn
      simp [getLocalRead, heartBeatForReadResult, hv, hop, hexp]
    · simp [getLocalRead, heartBeatForReadResult, hv, hop]

/-- Witness for C10: the expired lock record is reported as a miss on both
read paths. -/
theorem get_elides_expired_locks_witness :
    getLocalRead c5Store [] ['u'] ['k'] = ⟨true, false, []⟩ ∧
    heartBeatForReadResult c5Store [] ['u'] ['k'] = ⟨true, false, []⟩ :=
  (get_elides_expired_locks c5Store [] ['u'] ['k'] ⟨kLock, ['s']⟩
    (by decide)).1 (by decide)
